import Mathlib

/-!
Verification development for the indesign-html-merge utilities.

Strings of the Python scripts are modelled as lists of natural numbers
(one code point per element), and binary data as lists of bytes, also
`List Nat`.  External libraries (Pillow, ffmpeg, gzip, BeautifulSoup)
are modelled as explicit environment records passed to the functions
that call them; everything the scripts compute themselves is translated
directly from the source.
-/

/-- Code points of a Lean string literal, used to write down the string
constants of the Python sources. -/
def codes (s : String) : List Nat := s.data.map Char.toNat

/-- If `pat` is a prefix of `l`, the remainder of `l` after `pat`. -/
def stripPre? (pat l : List Nat) : Option (List Nat) :=
  if pat.isPrefixOf l then some (l.drop pat.length) else none

/-- Fuelled body of `pyReplace`; each step consumes at least one
character, so fuel equal to the length of the string suffices. -/
def pyReplaceGo (pat rep : List Nat) : Nat → List Nat → List Nat
  | _, [] => []
  | 0, l => l
  | fuel + 1, c :: cs =>
    if pat ≠ [] ∧ pat.isPrefixOf (c :: cs) then
      rep ++ pyReplaceGo pat rep fuel (cs.drop (pat.length - 1))
    else
      c :: pyReplaceGo pat rep fuel cs

/-- Python `str.replace(pat, rep)` for a non-empty `pat`:
non-overlapping left-to-right replacement. -/
def pyReplace (pat rep s : List Nat) : List Nat :=
  pyReplaceGo pat rep s.length s

/-!
## Base85 (`optimise_base64_image_audio.py` lines 50–80 and 193–204,
identical in `optimise_base64.py` lines 32–62 and 163–174)

`encode_base85` calls Python `base64.a85encode` (ASCII85: character
`chr(33 + v)` for digit value `v`, an all-zero 4-byte group folded to
`z`, the final partial group padded with zero bytes, encoded, the fold
undone, and truncated to `len % 4 + 1` characters) and then removes the
Adobe framing markers `<~` and `~>` with `str.replace` (a no-op, since
ASCII85 output never contains `~`).

The client-side `decodeBase85` of `DECODER_JS` uses a different, 85
character alphabet and JavaScript 32-bit bitwise arithmetic; it is
modelled below exactly as written in the script.
-/

/-- One full ASCII85 group: the five base-85 digits of a 32-bit word,
each offset by 33, as in CPython `_85encode`. -/
def a85chunk5 (w : Nat) : List Nat :=
  [33 + w / 85 ^ 4 % 85, 33 + w / 85 ^ 3 % 85, 33 + w / 85 ^ 2 % 85,
   33 + w / 85 % 85, 33 + w % 85]

/-- CPython `base64.a85encode` (defaults: no folding of spaces, no
wrapping, no padding, no Adobe framing): full 4-byte groups, an
all-zero group written as `z`; the last partial group is padded with
zero bytes, encoded without the `z` fold, and truncated. -/
def a85encode : List Nat → List Nat
  | a :: b :: c :: d :: rest =>
    (if a * 16777216 + b * 65536 + c * 256 + d = 0 then [122]
     else a85chunk5 (a * 16777216 + b * 65536 + c * 256 + d)) ++ a85encode rest
  | [] => []
  | l =>
    let padded := l ++ List.replicate (4 - l.length) 0
    (a85chunk5 (padded.getD 0 0 * 16777216 + padded.getD 1 0 * 65536 +
                padded.getD 2 0 * 256 + padded.getD 3 0)).take (l.length + 1)

/-- `encode_base85` of the optimiser scripts: ASCII85 followed by the
two framing removals (which never fire on ASCII85 output). -/
def encode_base85 (data : List Nat) : List Nat :=
  pyReplace (codes "~>") [] (pyReplace (codes "<~") [] (a85encode data))

/-- The 85-character alphabet of the client-side decoder in
`DECODER_JS`: digits, upper case, lower case, then 23 punctuation
characters. -/
def base85Chars : List Nat :=
  (List.range 10).map (48 + ·) ++ (List.range 26).map (65 + ·) ++
  (List.range 26).map (97 + ·) ++
  [33, 35, 36, 37, 38, 40, 41, 42, 43, 45, 59, 60, 61, 62, 63, 64,
   94, 95, 96, 123, 124, 125, 126]

/-- `base85Chars.indexOf(c)` of the decoder, `none` for a character not
in the alphabet. -/
def b85index (c : Nat) : Option Nat :=
  base85Chars.findIdx? (· = c)

/-- The accumulation loop of `decodeBase85`: characters outside the
alphabet are skipped, the rest fold into `value = value * 85 + index`. -/
def decB85Chunk (chunk : List Nat) : Nat :=
  chunk.foldl (fun v c => match b85index c with | none => v | some i => v * 85 + i) 0

/-- Byte extraction of `decodeBase85`: JavaScript `(value >> (j*8)) & 0xFF`
truncates `value` to 32 bits first, so byte `j` is
`value % 2^32 / 2^(8*j) % 256`. -/
def decB85Bytes (v : Nat) : List Nat :=
  [v % 2 ^ 32 / 2 ^ 24 % 256, v % 2 ^ 32 / 2 ^ 16 % 256,
   v % 2 ^ 32 / 2 ^ 8 % 256, v % 2 ^ 32 % 256]

/-- Main loop of `decodeBase85`: 5-character chunks, a short final chunk
padded with `u` (code 117), at most `cap` bytes emitted in total. -/
def decodeBase85Go : List Nat → Nat → List Nat
  | [], _ => []
  | c1 :: c2 :: c3 :: c4 :: c5 :: rest, cap =>
    let bs := (decB85Bytes (decB85Chunk [c1, c2, c3, c4, c5])).take cap
    bs ++ decodeBase85Go rest (cap - bs.length)
  | l, cap =>
    (decB85Bytes (decB85Chunk (l ++ List.replicate (5 - l.length) 117))).take cap

/-- The client-side `decodeBase85` of `DECODER_JS`: result capacity is
`floor(len * 4 / 5)`. -/
def decodeBase85 (encoded : List Nat) : List Nat :=
  decodeBase85Go encoded (encoded.length * 4 / 5)

/-!
## Base64 (`base64.b64encode` / `base64.b64decode` as used by all three
optimiser scripts)

`b64decode` is called without `validate`, so it follows CPython
`binascii.a2b_base64` in non-strict mode: characters outside the
alphabet are skipped, `=` at quad position 0 or 1 is ignored, `=` at
quad position 2 or 3 finishes decoding once enough padding has been
seen, and input ending mid-quad raises.  A Python `str` argument is
first encoded as ASCII, so any code point of 128 or more raises.
-/

/-- Standard base64 alphabet: the character for a 6-bit value. -/
def b64char (v : Nat) : Nat :=
  if v < 26 then 65 + v
  else if v < 52 then 97 + (v - 26)
  else if v < 62 then 48 + (v - 52)
  else if v = 62 then 43
  else 47

/-- Inverse table of the base64 alphabet, `none` outside it. -/
def b64val (c : Nat) : Option Nat :=
  if 65 ≤ c ∧ c ≤ 90 then some (c - 65)
  else if 97 ≤ c ∧ c ≤ 122 then some (c - 97 + 26)
  else if 48 ≤ c ∧ c ≤ 57 then some (c - 48 + 52)
  else if c = 43 then some 62
  else if c = 47 then some 63
  else none

/-- `base64.b64encode`: 3-byte groups to 4 characters, the final group
padded with `=`. -/
def b64encode : List Nat → List Nat
  | a :: b :: c :: rest =>
    b64char (a / 4) :: b64char (a % 4 * 16 + b / 16) ::
    b64char (b % 16 * 4 + c / 64) :: b64char (c % 64) :: b64encode rest
  | [a, b] => [b64char (a / 4), b64char (a % 4 * 16 + b / 16), b64char (b % 16 * 4), 61]
  | [a] => [b64char (a / 4), b64char (a % 4 * 16), 61, 61]
  | [] => []

/-- The scanning loop of CPython `binascii.a2b_base64` in non-strict
mode.  State: remaining input, quad position (0 to 3), pending bits,
number of padding characters seen at quad position 2 or more, output
accumulator (reversed).  A `=` at quad position below 2 is ignored; a
`=` at quad position 2 or 3 finishes decoding once the position plus
the incremented pad count reaches 4; characters outside the alphabet
are skipped without touching the pad count; every consumed data
character resets the pad count to 0, as `binascii.c` does
(`pads = 0;` before its quad-position switch).  `none` models
`binascii.Error`. -/
def a2bLoop : List Nat → Nat → Nat → Nat → List Nat → Option (List Nat)
  | [], qp, _, _, acc => if qp = 0 then some acc.reverse else none
  | c :: cs, qp, left, pads, acc =>
    if c = 61 then
      if 2 ≤ qp ∧ 4 ≤ qp + pads + 1 then some acc.reverse
      else a2bLoop cs qp left (if 2 ≤ qp then pads + 1 else pads) acc
    else
      match b64val c with
      | none => a2bLoop cs qp left pads acc
      | some v =>
        if qp = 0 then a2bLoop cs 1 v 0 acc
        else if qp = 1 then a2bLoop cs 2 (v % 16) 0 ((left * 4 + v / 16) :: acc)
        else if qp = 2 then a2bLoop cs 3 (v % 4) 0 ((left * 16 + v / 4) :: acc)
        else a2bLoop cs 0 0 0 ((left * 64 + v) :: acc)

/-- `base64.b64decode` applied to a Python `str`: ASCII-encode (failing
on any code point of 128 or more), then run the `a2b_base64` loop. -/
def b64decodePy (s : List Nat) : Option (List Nat) :=
  if s.all (fun c => c < 128) then a2bLoop s 0 0 0 [] else none

theorem b64val_b64char : ∀ v, v < 64 → b64val (b64char v) = some v := by decide

theorem b64char_lt_128 : ∀ v, b64char v < 128 := by
  intro v
  unfold b64char
  split <;> [omega; split <;> [omega; split <;> [omega; split <;> omega]]]

theorem b64encode_all_lt_128 (l : List Nat) : ∀ c ∈ b64encode l, c < 128 := by
  induction l using b64encode.induct with
  | case1 a b c rest ih =>
    intro x hx
    simp only [b64encode, List.mem_cons] at hx
    rcases hx with h | h | h | h | h
    · exact h ▸ b64char_lt_128 _
    · exact h ▸ b64char_lt_128 _
    · exact h ▸ b64char_lt_128 _
    · exact h ▸ b64char_lt_128 _
    · exact ih x h
  | case2 a b =>
    intro x hx
    simp only [b64encode, List.mem_cons] at hx
    simp only [List.mem_singleton, List.not_mem_nil, or_false] at hx
    rcases hx with h | h | h | h <;>
      first | exact h ▸ b64char_lt_128 _ | omega
  | case3 a =>
    intro x hx
    simp only [b64encode, List.mem_cons, List.mem_singleton, List.not_mem_nil,
      or_false] at hx
    rcases hx with h | h | h | h <;>
      first | exact h ▸ b64char_lt_128 _ | omega
  | case4 => intro x hx; simp [b64encode] at hx

theorem b64char_ne_pad (v : Nat) : b64char v ≠ 61 := by
  unfold b64char
  split <;> [omega; split <;> [omega; split <;> [omega; split <;> omega]]]

theorem b64val_lt_64 {c v : Nat} (h : b64val c = some v) : v < 64 := by
  unfold b64val at h
  split at h <;> [skip; split at h <;> [skip; split at h <;>
    [skip; split at h <;> [skip; split at h <;> [skip; exact absurd h (by simp)]]]]] <;>
    (injection h with h; omega)

/-- Decoding one full encoded quad consumes four characters, emits the
three original bytes and returns to the initial loop state. -/
theorem a2bLoop_quad (a b c : Nat) (ha : a < 256) (hb : b < 256) (hc : c < 256)
    (cs : List Nat) (pads : Nat) (acc : List Nat) :
    a2bLoop (b64char (a / 4) :: b64char (a % 4 * 16 + b / 16) ::
             b64char (b % 16 * 4 + c / 64) :: b64char (c % 64) :: cs) 0 0 pads acc =
    a2bLoop cs 0 0 0 (c :: b :: a :: acc) := by
  have e1 : b64val (b64char (a / 4)) = some (a / 4) := b64val_b64char _ (by omega)
  have e2 : b64val (b64char (a % 4 * 16 + b / 16)) = some (a % 4 * 16 + b / 16) :=
    b64val_b64char _ (by omega)
  have e3 : b64val (b64char (b % 16 * 4 + c / 64)) = some (b % 16 * 4 + c / 64) :=
    b64val_b64char _ (by omega)
  have e4 : b64val (b64char (c % 64)) = some (c % 64) := b64val_b64char _ (by omega)
  have h1 : a / 4 * 4 + (a % 4 * 16 + b / 16) / 16 = a := by omega
  have h2 : (a % 4 * 16 + b / 16) % 16 * 16 + (b % 16 * 4 + c / 64) / 4 = b := by omega
  have h3 : (b % 16 * 4 + c / 64) % 4 * 64 + c % 64 = c := by omega
  norm_num [a2bLoop, b64char_ne_pad, e1, e2, e3, e4, h1, h2, h3]

/-- Single-step unfoldings of the decoder loop, with the tail kept
abstract. -/
theorem a2bLoop_step0 {c v : Nat} (hv : b64val c = some v) (hne : c ≠ 61)
    (cs : List Nat) (left pads : Nat) (acc : List Nat) :
    a2bLoop (c :: cs) 0 left pads acc = a2bLoop cs 1 v 0 acc := by
  norm_num [a2bLoop, hne, hv]

theorem a2bLoop_step1 {c v : Nat} (hv : b64val c = some v) (hne : c ≠ 61)
    (cs : List Nat) (left pads : Nat) (acc : List Nat) :
    a2bLoop (c :: cs) 1 left pads acc =
      a2bLoop cs 2 (v % 16) 0 ((left * 4 + v / 16) :: acc) := by
  norm_num [a2bLoop, hne, hv]

theorem a2bLoop_pad_done {qp pads : Nat} (hq : 2 ≤ qp) (hp : 4 ≤ qp + pads + 1)
    (cs : List Nat) (left : Nat) (acc : List Nat) :
    a2bLoop (61 :: cs) qp left pads acc = some acc.reverse := by
  simp only [a2bLoop]
  rw [if_pos trivial, if_pos ⟨hq, hp⟩]

theorem a2bLoop_pad_go {qp pads : Nat} (hq : 2 ≤ qp) (hp : ¬ 4 ≤ qp + pads + 1)
    (cs : List Nat) (left : Nat) (acc : List Nat) :
    a2bLoop (61 :: cs) qp left pads acc = a2bLoop cs qp left (pads + 1) acc := by
  simp only [a2bLoop]
  rw [if_pos trivial, if_neg (by omega), if_pos hq]

theorem a2bLoop_b64encode (l : List Nat) (h : ∀ b ∈ l, b < 256) :
    ∀ pads acc, a2bLoop (b64encode l) 0 0 pads acc = some (acc.reverse ++ l) := by
  induction l using b64encode.induct with
  | case1 a b c rest ih =>
    intro pads acc
    have ha : a < 256 := h a (by simp)
    have hb : b < 256 := h b (by simp)
    have hc : c < 256 := h c (by simp)
    rw [show b64encode (a :: b :: c :: rest) =
        b64char (a / 4) :: b64char (a % 4 * 16 + b / 16) ::
        b64char (b % 16 * 4 + c / 64) :: b64char (c % 64) :: b64encode rest from rfl,
      a2bLoop_quad a b c ha hb hc _ pads acc,
      ih (fun x hx => h x (by simp [hx])) 0 (c :: b :: a :: acc)]
    simp
  | case2 a b =>
    intro pads acc
    have ha : a < 256 := h a (by simp)
    have hb : b < 256 := h b (by simp)
    have e1 : b64val (b64char (a / 4)) = some (a / 4) := b64val_b64char _ (by omega)
    have e2 : b64val (b64char (a % 4 * 16 + b / 16)) = some (a % 4 * 16 + b / 16) :=
      b64val_b64char _ (by omega)
    have e3 : b64val (b64char (b % 16 * 4)) = some (b % 16 * 4) :=
      b64val_b64char _ (by omega)
    have h1 : a / 4 * 4 + (a % 4 * 16 + b / 16) / 16 = a := by omega
    have h2 : (a % 4 * 16 + b / 16) % 16 * 16 + b % 16 * 4 / 4 = b := by omega
    norm_num [b64encode, a2bLoop, b64char_ne_pad, e1, e2, e3, h1, h2]
    omega
  | case3 a =>
    intro pads acc
    have ha : a < 256 := h a (by simp)
    have e1 : b64val (b64char (a / 4)) = some (a / 4) := b64val_b64char _ (by omega)
    have e2 : b64val (b64char (a % 4 * 16)) = some (a % 4 * 16) :=
      b64val_b64char _ (by omega)
    have h1 : a / 4 * 4 + a % 4 * 16 / 16 = a := by omega
    show a2bLoop (b64char (a / 4) :: b64char (a % 4 * 16) :: 61 :: [61]) 0 0 pads acc
      = some (acc.reverse ++ [a])
    rw [a2bLoop_step0 e1 (b64char_ne_pad _), a2bLoop_step1 e2 (b64char_ne_pad _), h1]
    rw [a2bLoop_pad_go (by omega) (by omega), a2bLoop_pad_done (by omega) (by omega)]
    simp
  | case4 =>
    intro pads acc
    simp [b64encode, a2bLoop]

theorem b64decodePy_b64encode (l : List Nat) (h : ∀ b ∈ l, b < 256) :
    b64decodePy (b64encode l) = some l := by
  unfold b64decodePy
  rw [if_pos]
  · simpa using a2bLoop_b64encode l h 0 []
  · rw [List.all_eq_true]
    intro c hc
    simpa using b64encode_all_lt_128 l c hc

/-- Every byte produced by the decoding loop is below 256. -/
theorem a2bLoop_lt256 :
    ∀ (s : List Nat) (qp left pads : Nat) (acc out : List Nat),
      qp ≤ 3 →
      (qp = 1 → left < 64) → (qp = 2 → left < 16) → (qp = 3 → left < 4) →
      (∀ x ∈ acc, x < 256) →
      a2bLoop s qp left pads acc = some out → ∀ x ∈ out, x < 256 := by
  intro s
  induction s with
  | nil =>
    intro qp left pads acc out _ _ _ _ hacc heq
    simp only [a2bLoop] at heq
    split at heq
    · injection heq with heq
      intro x hx
      exact hacc x (by simpa [← heq] using hx)
    · exact absurd heq (by simp)
  | cons c cs ih =>
    intro qp left pads acc out hle h1 h2 h3 hacc heq
    simp only [a2bLoop] at heq
    split at heq
    · split at heq
      · injection heq with heq
        intro x hx
        exact hacc x (by simpa [← heq] using hx)
      · exact ih _ _ _ _ _ hle h1 h2 h3 hacc heq
    · split at heq
      · exact ih _ _ _ _ _ hle h1 h2 h3 hacc heq
      · rename_i v hv
        have hvlt : v < 64 := b64val_lt_64 hv
        split at heq
        · exact ih _ _ _ _ _ (by omega) (fun _ => hvlt) (by omega) (by omega) hacc heq
        · split at heq
          · refine ih _ _ _ _ _ (by omega) (by omega) (fun _ => by omega) (by omega)
              ?_ heq
            intro x hx
            rcases List.mem_cons.mp hx with hh | hh
            · rename_i hq1
              have := h1 hq1
              omega
            · exact hacc x hh
          · split at heq
            · refine ih _ _ _ _ _ (by omega) (by omega) (by omega) (fun _ => by omega)
                ?_ heq
              intro x hx
              rcases List.mem_cons.mp hx with hh | hh
              · rename_i hq2
                have := h2 hq2
                omega
              · exact hacc x hh
            · refine ih _ _ _ _ _ (by omega) (by omega) (by omega) (by omega) ?_ heq
              intro x hx
              rcases List.mem_cons.mp hx with hh | hh
              · rename_i hq0 hq1 hq2
                have := h3 (by omega)
                omega
              · exact hacc x hh

theorem b64decodePy_lt256 {s out : List Nat} (h : b64decodePy s = some out) :
    ∀ x ∈ out, x < 256 := by
  unfold b64decodePy at h
  split at h
  · exact a2bLoop_lt256 s 0 0 0 [] out (by omega) (by omega) (by omega) (by omega)
      (by simp) h
  · exact absurd h (by simp)

/-!
## Data URI extraction (`process_data_uri` of all three scripts)

Each `process_data_uri` starts by running
`re.search(r\x27data:([^;]+);base64,([^"\x27\s]+)\x27, data_uri)`.
Because the first group cannot contain `;` and must be followed by the
literal `;base64,`, the regex is deterministic at each start position:
the MIME group is everything up to the first `;` after `data:`, the
literal must follow, and the payload is the maximal non-empty run of
characters that are not a quote, an apostrophe or whitespace.
`re.search` returns the leftmost position at which this succeeds.
-/

/-- Python regex `\s` on `str`: the Unicode whitespace code points. -/
def isPySpaceN (c : Nat) : Bool :=
  c ∈ [9, 10, 11, 12, 13, 28, 29, 30, 31, 32, 133, 160, 5760,
       8192, 8193, 8194, 8195, 8196, 8197, 8198, 8199, 8200, 8201, 8202,
       8232, 8233, 8239, 8287, 12288]

/-- Attempt to match `data:([^;]+);base64,([^"\x27\s]+)` anchored at the
start of `s`, returning the two captured groups. -/
def uriMatchAt (s : List Nat) : Option (List Nat × List Nat) :=
  match stripPre? (codes "data:") s with
  | none => none
  | some r1 =>
    let mime := r1.takeWhile (fun c => c ≠ 59)
    if mime = [] then none
    else
      match stripPre? (codes ";base64,") (r1.drop mime.length) with
      | none => none
      | some r2 =>
        let payload := r2.takeWhile (fun c => ¬ (c = 34 ∨ c = 39 ∨ isPySpaceN c))
        if payload = [] then none else some (mime, payload)

/-- `re.search` for the data URI pattern: leftmost matching position. -/
def uriSearch : List Nat → Option (List Nat × List Nat)
  | [] => none
  | c :: cs =>
    match uriMatchAt (c :: cs) with
    | some r => some r
    | none => uriSearch cs

/-!
## `optimise_audio` (`optimise_base64.py` lines 185–326; the function
`optimize_audio` of `optimise_base64_image_audio.py` lines 479–620 is
textually identical up to spelling and shares this model)

The interactions with the outside world (the `ffmpeg -version` check,
temporary files, the `ffmpeg` transcoding run and reading its output
file) are modelled by an environment record; everything else follows
the control flow of the source.  The mutation of the global statistics
dictionary has no influence on the returned value and is not modelled.
-/

/-- Outcome of the external effects inside `optimise_audio`. -/
structure AudioEnv where
  /-- The `subprocess.run(["ffmpeg", "-version"], ...)` call did not
  raise, i.e. ffmpeg is present. -/
  ffmpegOk : Bool
  /-- An exception occurred inside the `try` block (temporary files,
  launching ffmpeg, or reading the output file). -/
  runExc : Bool
  /-- The transcoding run returned exit code 0. -/
  returncodeZero : Bool
  /-- Contents of the ffmpeg output file. -/
  output : List Nat

/-- `optimise_audio(audio_data, mime_type, ...)`: returns the pair
`(optimised_data, mime_type)` of the source. -/
def optimise_audio (env : AudioEnv) (audio_data mime_type : List Nat) :
    List Nat × List Nat :=
  if ¬ env.ffmpegOk then (audio_data, mime_type)
  else if audio_data.length < 10240 then (audio_data, mime_type)
  else if env.runExc then (audio_data, mime_type)
  else if env.returncodeZero then
    if env.output.length < audio_data.length then (env.output, codes "audio/mpeg")
    else (audio_data, mime_type)
  else (audio_data, mime_type)

/-- `optimize_audio` of `optimise_base64_image_audio.py`, textually the
same function. -/
def optimize_audio (env : AudioEnv) (audio_data mime_type : List Nat) :
    List Nat × List Nat :=
  optimise_audio env audio_data mime_type

/-!
## `process_data_uri` of `optimise_base64.py` (lines 328–390)

`is_valid_base64` and the subsequent `base64.b64decode` run the same
decoder, so they are modelled by a single `match` on `b64decodePy`;
the function validates, decodes, skips payloads below `min_size`,
transcodes `audio/*` payloads and rebuilds a plain data URI with the
base64 of the result, and returns every other candidate unchanged.
-/

/-- `process_data_uri(match, tag_name, options)` of `optimise_base64.py`;
`minSize` is `options.get(\x27min_size\x27, 1024)` and `candidate` is
`match.group(0)`. -/
def process_data_uri_ob (env : AudioEnv) (minSize : Nat) (candidate : List Nat) :
    List Nat :=
  match uriSearch candidate with
  | none => candidate
  | some (mime_type, base64_data) =>
    match b64decodePy base64_data with
    | none => candidate
    | some binary_data =>
      if binary_data.length < minSize then candidate
      else if (codes "audio/").isPrefixOf mime_type then
        let r := optimise_audio env binary_data mime_type
        codes "data:" ++ r.2 ++ codes ";base64," ++ b64encode r.1
      else candidate

/-!
## `optimize_image` (`optimise_base64_image_audio.py` lines 223–378)

Pillow calls are modelled by an environment: `validImage` is the result
of `is_valid_image`, `webpBytes` the bytes of the WebP save (`none`
when `Image.open`, the resize or the save raises), `reencodeBytes` the
bytes of the save in the original format (`none` when it raises).  An
exception anywhere inside the `try` block falls through to returning
the original data, as in the source.  `quality`, `max_dimension` and
`verbose` only influence these external results and the logging and are
absorbed into the environment.
-/

/-- Outcome of the Pillow calls inside `optimize_image`. -/
structure ImageEnv where
  /-- `PILLOW_AVAILABLE`. -/
  pillowAvailable : Bool
  /-- Result of `is_valid_image(image_data, mime_type)`. -/
  validImage : Bool
  /-- Bytes produced by the WebP save, `none` if it raises. -/
  webpBytes : Option (List Nat)
  /-- Bytes produced by re-saving in the original format, `none` if it
  raises. -/
  reencodeBytes : Option (List Nat)

/-- `optimize_image(image_data, mime_type, quality, convert_to_webp,
max_dimension, verbose)`: returns `(optimized_data, new_mime_type)`. -/
def optimize_image (env : ImageEnv) (image_data mime_type : List Nat)
    (convert_to_webp : Bool) : List Nat × List Nat :=
  if ¬ env.pillowAvailable then (image_data, mime_type)
  else if mime_type = codes "image/svg+xml" then (image_data, mime_type)
  else if image_data.length < 1024 then (image_data, mime_type)
  else if ¬ env.validImage then (image_data, mime_type)
  else
    match env.webpBytes with
    | none => (image_data, mime_type)
    | some webp_data =>
      if convert_to_webp ∧ webp_data.length < image_data.length then
        (webp_data, codes "image/webp")
      else
        match env.reencodeBytes with
        | none => (image_data, mime_type)
        | some optimized_data =>
          if optimized_data.length < image_data.length then
            (optimized_data, mime_type)
          else (image_data, mime_type)

/-!
## `optimize_svg` (`optimise_base64_image_audio.py` lines 380–477)

The UTF-8 decode, the three `re.sub` minification passes and
`gzip.compress` are modelled by an environment: `decodeOk` is whether
`svg_data.decode(\x27utf-8\x27)` succeeds, `minified` the UTF-8 bytes of
the minified text, `gzipped` the gzip compression of it.  A decode
failure takes the `except` path and returns the original bytes.
-/

/-- Outcome of the text processing inside `optimize_svg`. -/
structure SvgEnv where
  /-- The UTF-8 decode of the SVG bytes succeeds. -/
  decodeOk : Bool
  /-- Bytes of the minified SVG text (comments removed, inter-tag and
  line-edge whitespace stripped). -/
  minified : List Nat
  /-- `gzip.compress` of the minified text. -/
  gzipped : List Nat

/-- `optimize_svg(svg_data, verbose)`: returns
`(optimized_data, compression_type)`. -/
def optimize_svg (env : SvgEnv) (svg_data : List Nat) : List Nat × List Nat :=
  if ¬ env.decodeOk then (svg_data, codes "none")
  else if env.gzipped.length < svg_data.length then (env.gzipped, codes "gzip")
  else if env.minified.length < svg_data.length then (env.minified, codes "none")
  else (svg_data, codes "none")

/-!
## `process_data_uri` of `optimise_base64_image_audio.py` (lines 631–737)

Options of the source carried by `IaOpts`; `image_quality`,
`audio_bitrate` and `max_dimension` only feed the external tools and
are absorbed into the environments.  `minRatioNum / minRatioDen` model
the float `min_compression_ratio` (default `0.05 = 1/20`) as an exact
rational with a positive denominator; the comparison agrees with the
float comparison of the source except when the exact ratio is within a
rounding error of the threshold.
-/

/-- Options of `process_data_uri` in `optimise_base64_image_audio.py`. -/
structure IaOpts where
  minSize : Nat
  useWebp : Bool
  useBase85 : Bool
  minRatioNum : Int
  minRatioDen : Int

/-- The replacement attribute string
`data-optimized-src="..." data-mime-type="..." data-encoding="..."
data-compression="..."` (identical for every tag name). -/
def attrIa (enc nm encName comp : List Nat) : List Nat :=
  codes "data-optimized-src=" ++ [34] ++ enc ++ [34] ++
  codes " data-mime-type=" ++ [34] ++ nm ++ [34] ++
  codes " data-encoding=" ++ [34] ++ encName ++ [34] ++
  codes " data-compression=" ++ [34] ++ comp ++ [34]

/-- The tail of the non-audio branches: encode with base85 or base64,
compare the encoded size against the original payload size with the
minimum compression ratio, and either keep the original candidate or
emit the replacement attributes. -/
def iaFinish (o : IaOpts) (mime_type base64_data candidate : List Nat)
    (optimized_data : List Nat) (new_mime_type compression : List Nat) : List Nat :=
  let use85 := o.useBase85 ∧ ¬ (codes "audio/").isPrefixOf mime_type
  let encoded_data := if use85 then encode_base85 optimized_data
                      else b64encode optimized_data
  let encName := if use85 then codes "base85" else codes "base64"
  if ((base64_data.length : Int) - encoded_data.length) * o.minRatioDen <
      o.minRatioNum * base64_data.length then candidate
  else attrIa encoded_data new_mime_type encName compression

/-- `process_data_uri(match, tag_name, options)` of
`optimise_base64_image_audio.py`; the returned replacement is the same
string for every tag name. -/
def process_data_uri_ia (ienv : ImageEnv) (senv : SvgEnv) (aenv : AudioEnv)
    (o : IaOpts) (candidate : List Nat) : List Nat :=
  match uriSearch candidate with
  | none => candidate
  | some (mime_type, base64_data) =>
    match b64decodePy base64_data with
    | none => candidate
    | some binary_data =>
      if binary_data.length < o.minSize then candidate
      else if mime_type = codes "image/svg+xml" then
        let r := optimize_svg senv binary_data
        iaFinish o mime_type base64_data candidate r.1 mime_type r.2
      else if (codes "image/").isPrefixOf mime_type then
        let r := optimize_image ienv binary_data mime_type o.useWebp
        iaFinish o mime_type base64_data candidate r.1 r.2 (codes "none")
      else if (codes "audio/").isPrefixOf mime_type then
        let r := optimize_audio aenv binary_data mime_type
        codes "data:" ++ r.2 ++ codes ";base64," ++ b64encode r.1
      else
        iaFinish o mime_type base64_data candidate binary_data mime_type (codes "none")

/-!
## `png_to_jpeg_optimiser.py` (lines 62–219)

`convert_png_to_jpeg` is a Pillow wrapper modelled by its outcome;
`should_exclude` and `process_data_uri` are translated from the source.
In this script the ratio gate is bypassed for `image/png` payloads
(`if compression_ratio < min_ratio and mime_type != \x27image/png\x27`).
-/

/-- Outcome of the Pillow calls inside `convert_png_to_jpeg`. -/
structure ConvEnv where
  /-- JPEG bytes on success, `none` when the conversion raises. -/
  jpegBytes : Option (List Nat)

/-- `convert_png_to_jpeg(image_data, quality)`: `(jpeg_data, success)`. -/
def convert_png_to_jpeg (env : ConvEnv) (image_data : List Nat) : List Nat × Bool :=
  match env.jpegBytes with
  | some jpeg_data => (jpeg_data, true)
  | none => (image_data, false)

/-- `should_exclude(base64_data, excluded_prefixes)`: does one of the
excluded strings start the first 26 characters of the payload. -/
def should_exclude (base64_data : List Nat) (excludedList : List (List Nat)) : Bool :=
  if excludedList = [] then false
  else excludedList.any (fun e => e.isPrefixOf (base64_data.take 26))

/-- Options of `process_data_uri` in `png_to_jpeg_optimiser.py`. -/
structure PngOpts where
  minSize : Nat
  pngToJpeg : Bool
  excludedList : List (List Nat)
  minRatioNum : Int
  minRatioDen : Int

/-- The replacement attribute string of `png_to_jpeg_optimiser.py`
(identical for every tag name). -/
def attrPng (enc nm : List Nat) : List Nat :=
  codes "data-optimized-src=" ++ [34] ++ enc ++ [34] ++
  codes " data-mime-type=" ++ [34] ++ nm ++ [34]

/-- The tail of `process_data_uri` in `png_to_jpeg_optimiser.py`:
encode, apply the ratio gate (bypassed for `image/png`), and either
keep the candidate or emit the replacement attributes. -/
def pngFinish (o : PngOpts) (mime_type base64_data candidate : List Nat)
    (optimized_data new_mime_type : List Nat) : List Nat :=
  let encoded_data := b64encode optimized_data
  if ((base64_data.length : Int) - encoded_data.length) * o.minRatioDen <
      o.minRatioNum * base64_data.length ∧ mime_type ≠ codes "image/png" then
    candidate
  else attrPng encoded_data new_mime_type

/-- `process_data_uri(match, tag_name, options)` of
`png_to_jpeg_optimiser.py`. -/
def process_data_uri_png (env : ConvEnv) (o : PngOpts) (candidate : List Nat) :
    List Nat :=
  match uriSearch candidate with
  | none => candidate
  | some (mime_type, base64_data) =>
    match b64decodePy base64_data with
    | none => candidate
    | some binary_data =>
      if binary_data.length < o.minSize then candidate
      else if mime_type = codes "image/png" ∧ o.pngToJpeg then
        if should_exclude base64_data o.excludedList then candidate
        else
          let r := convert_png_to_jpeg env binary_data
          pngFinish o mime_type base64_data candidate r.1
            (if r.2 then codes "image/jpeg" else mime_type)
      else pngFinish o mime_type base64_data candidate binary_data mime_type

/-!
## `fix-fonts.py`

The directory is modelled as the list of its file names; `os.listdir`
snapshots that list, and each `os.rename` replaces the old name by the
new one in the evolving directory state.  A rename failure
(the `except` around `os.rename`) is not modelled; `str.lower` is
modelled on ASCII letters, which is exact on every name that can match
the ASCII keys of `FONT_NAME_MAP`.
-/

/-- ASCII `str.lower`. -/
def lowerName (l : List Nat) : List Nat :=
  l.map (fun c => if 65 ≤ c ∧ c ≤ 90 then c + 32 else c)

/-- The `FONT_NAME_MAP` dictionary of `fix-fonts.py`. -/
def FONT_NAME_MAP : List (List Nat × List Nat) :=
  [(codes "calibrib.ttf", codes "Calibri-Bold.ttf"),
   (codes "calibrii.ttf", codes "Calibri-Italic.ttf"),
   (codes "calibribi.ttf", codes "Calibri-BoldItalic.ttf"),
   (codes "arialbd.ttf", codes "Arial-Bold.ttf"),
   (codes "ariali.ttf", codes "Arial-Italic.ttf"),
   (codes "arialbi.ttf", codes "Arial-BoldItalic.ttf"),
   (codes "timesbd.ttf", codes "Times-New-Roman-Bold.ttf"),
   (codes "timesi.ttf", codes "Times-New-Roman-Italic.ttf"),
   (codes "timesbi.ttf", codes "Times-New-Roman-BoldItalic.ttf"),
   (codes "verdanab.ttf", codes "Verdana-Bold.ttf"),
   (codes "verdanai.ttf", codes "Verdana-Italic.ttf"),
   (codes "verdanabi.ttf", codes "Verdana-BoldItalic.ttf"),
   (codes "georgiabd.ttf", codes "Georgia-Bold.ttf"),
   (codes "georgiai.ttf", codes "Georgia-Italic.ttf"),
   (codes "georgiabi.ttf", codes "Georgia-BoldItalic.ttf")]

/-- Dictionary lookup `FONT_NAME_MAP[lower_filename]`. -/
def lookupFont (k : List Nat) : Option (List Nat) :=
  (FONT_NAME_MAP.find? (fun p => p.1 == k)).map Prod.snd

/-- `filename.lower().endswith((\x27.ttf\x27, \x27.otf\x27))`. -/
def hasFontExt (l : List Nat) : Bool :=
  (codes ".ttf").isSuffixOf (lowerName l) || (codes ".otf").isSuffixOf (lowerName l)

/-- One iteration of the `rename_fonts` loop on the current directory
state: returns the new state and the rename performed, if any. -/
def renameStep (st : List (List Nat)) (f : List Nat) :
    List (List Nat) × Option (List Nat × List Nat) :=
  if hasFontExt f then
    match lookupFont (lowerName f) with
    | some new_name =>
      if st.contains new_name then (st, none)
      else (st.map (fun x => if x = f then new_name else x), some (f, new_name))
    | none => (st, none)
  else (st, none)

/-- `rename_fonts(directory)`: fold the loop over the `os.listdir`
snapshot, starting from the same directory contents; returns the final
directory state and the list of renames performed, in order. -/
def rename_fonts (listing : List (List Nat)) :
    List (List Nat) × List (List Nat × List Nat) :=
  listing.foldl
    (fun acc f =>
      let r := renameStep acc.1 f
      (r.1, acc.2 ++ r.2.toList))
    (listing, [])

/-!
## `merge_all_publications.py`

`find_publication_files` (lines 12–38) matches
`re.search(r\x27publication-(\d+)\.html$\x27, filename)`.  Because the
pattern is anchored at the end and the captured digits cannot contain
the literal `publication-`, a file name matches exactly when it ends
with `publication-`, a non-empty digit run, and `.html`, and that
decomposition is unique, so the capture is the trailing digit run
before `.html`.  `os.path.join` of the absolute working directory and
a file name is the concatenation with a `/` separator.

`merge_html_pages` (lines 40–388): each input file is read and parsed
with BeautifulSoup; the selector result
`soup.select_one(\x27div[style*="position:absolute;overflow:hidden"]\x27)`
together with its truthiness test is modelled by the `mainContent`
field of `PageFile` (`none` when no matching div is found).  The loop
body is modelled block by block; the fixed HTML shell around it is kept
abstract as `header` and `footer`.
-/

/-- Decimal digit test, code points 48 to 57. -/
def isDigitN (c : Nat) : Bool := decide (48 ≤ c ∧ c ≤ 57)

/-- Python `int` of a decimal digit string. -/
def digitsVal (ds : List Nat) : Nat :=
  ds.foldl (fun a c => a * 10 + (c - 48)) 0

/-- Matcher for `publication-(\d+)\.html$` on a reversed name: strip
the reversed `.html`, take the digit run, and require the reversed
`publication-` to follow; returns the captured number. -/
def pubMatchRev (r : List Nat) : Option Nat :=
  match stripPre? (codes ".html").reverse r with
  | none => none
  | some r1 =>
    let ds := r1.takeWhile isDigitN
    if ds = [] then none
    else if (codes "publication-").reverse.isPrefixOf (r1.dropWhile isDigitN) then
      some (digitsVal ds.reverse)
    else none

/-- `re.search(r\x27publication-(\d+)\.html$\x27, name)` with the captured
page number converted by `int`. -/
def pubMatch (name : List Nat) : Option Nat :=
  pubMatchRev name.reverse

/-- `os.path.join(current_dir, filename)` for an absolute directory
without a trailing slash, as returned by `os.getcwd()`. -/
def pathJoin (dir name : List Nat) : List Nat := dir ++ [47] ++ name

/-- Insertion into a key-sorted list of `(page_number, file_path)`
pairs, after all existing entries with a key not above the new one, as
the stable `list.sort(key=lambda x: x[0])` orders them. -/
def insertPair (x : Nat × List Nat) : List (Nat × List Nat) → List (Nat × List Nat)
  | [] => [x]
  | y :: ys => if x.1 < y.1 then x :: y :: ys else y :: insertPair x ys

/-- Stable sort by page number: insert the collected pairs in listing
order. -/
def sortPairs (l : List (Nat × List Nat)) : List (Nat × List Nat) :=
  l.foldl (fun s x => insertPair x s) []

/-- `find_publication_files()` over a directory listing: collect
`(page_number, file_path)` for each matching name, sort by page
number, return the paths. -/
def find_publication_files (dir : List Nat) (listing : List (List Nat)) :
    List (List Nat) :=
  (sortPairs (listing.filterMap
    (fun n => (pubMatch n).map (fun k => (k, pathJoin dir n))))).map Prod.snd

/-- One input file of `merge_html_pages`: its path and the selected
main content div (`none` when the BeautifulSoup selector finds no div
whose inline style contains `position:absolute;overflow:hidden`, or
the selected tag is falsy). -/
structure PageFile where
  path : List Nat
  mainContent : Option (List Nat)

/-- `os.path.basename`: the part after the last `/`. -/
def basenameList (p : List Nat) : List Nat :=
  (p.reverse.takeWhile (fun c => c ≠ 47)).reverse

/-- Python `str.split(sep)` for a single-character separator. -/
def splitOnList (sep : Nat) : List Nat → List (List Nat)
  | [] => [[]]
  | c :: cs =>
    let r := splitOnList sep cs
    if c = sep then [] :: r
    else
      match r with
      | [] => [[c]]
      | h :: t => (c :: h) :: t

/-- `os.path.basename(file_path).split(\x27-\x27)[1].split(\x27.\x27)[0]`
of `merge_html_pages` (line 326). -/
def file_page_number (path : List Nat) : List Nat :=
  (splitOnList 46 ((splitOnList 45 (basenameList path)).getD 1 [])).getD 0 []

/-- A piece the merge loop appends: a publication div (with the id
suffix and the serialised content) or a navigation separator (with the
1-based display page number and the total). -/
inductive MergeBlock where
  | pub (idSuffix content : List Nat)
  | sep (display total : Nat)
deriving DecidableEq

/-- The blocks the loop of `merge_html_pages` appends, in order: for
each file with a selected content div, one publication div, followed by
a separator when the file is not the last of the list. -/
def mergeBlocks (pages : List PageFile) : List MergeBlock :=
  (List.enumFrom 1 pages).flatMap
    (fun ip =>
      match ip.2.mainContent with
      | none => []
      | some mc =>
        MergeBlock.pub (file_page_number ip.2.path) mc ::
          (if ip.1 < pages.length then [MergeBlock.sep ip.1 pages.length] else []))

/-- The id suffixes of the publication divs a block list contains. -/
def pubIds (bs : List MergeBlock) : List (List Nat) :=
  bs.filterMap (fun b => match b with | .pub i _ => some i | .sep _ _ => none)

/-- Decimal digits of a number, as `str(int)` renders it. -/
def natDigitsGo : Nat → Nat → List Nat
  | 0, n => [48 + n % 10]
  | fuel + 1, n => if n < 10 then [48 + n] else natDigitsGo fuel (n / 10) ++ [48 + n % 10]

/-- Decimal representation of `n` (code points). -/
def natDigits (n : Nat) : List Nat := natDigitsGo n n

/-- The exact string the loop appends for one block, from the
f-string literals of lines 341–343 and 361–376. -/
def renderBlock : MergeBlock → List Nat := fun b =>
  match b with
  | .pub idSuffix content =>
    codes "<div class=" ++ [34] ++ codes "publication" ++ [34] ++
    codes " id=" ++ [34] ++ codes "publication-" ++ idSuffix ++ [34] ++ codes ">\n" ++
    content ++ codes "\n</div>\n"
  | .sep d t =>
    codes "<div class=" ++ [34] ++ codes "separator" ++ [34] ++ codes ">\n" ++
    codes "                    <button class=" ++ [34] ++ codes "nav-button" ++ [34] ++
    codes " " ++ (if d = 1 then codes "disabled" else []) ++
    codes " onclick=" ++ [34] ++
    (if d > 1 then codes "navigateToPreviousPage(" ++ natDigits d ++ codes ")" else []) ++
    [34] ++ codes ">Previous Page</button>\n" ++
    codes "                    <div class=" ++ [34] ++ codes "goto-container" ++ [34] ++
    codes ">\n                        <span>Go to page:</span>\n" ++
    codes "                        <input type=" ++ [34] ++ codes "number" ++ [34] ++
    codes " class=" ++ [34] ++ codes "goto-input" ++ [34] ++
    codes " id=" ++ [34] ++ codes "goto-input-" ++ natDigits d ++ [34] ++
    codes " min=" ++ [34] ++ codes "1" ++ [34] ++
    codes " max=" ++ [34] ++ natDigits t ++ [34] ++
    codes " placeholder=" ++ [34] ++ codes "1-" ++ natDigits t ++ [34] ++ codes ">\n" ++
    codes "                        <button class=" ++ [34] ++ codes "nav-button" ++ [34] ++
    codes " onclick=" ++ [34] ++ codes "goToSpecificPage(" ++ [39] ++
    codes "goto-input-" ++ natDigits d ++ [39] ++ codes ", " ++ natDigits t ++
    codes ")" ++ [34] ++ codes ">Go</button>\n" ++
    codes "                    </div>\n" ++
    codes "                    <div class=" ++ [34] ++ codes "print-container" ++ [34] ++
    codes ">\n                        <button class=" ++ [34] ++
    codes "nav-button print-button" ++ [34] ++ codes " onclick=" ++ [34] ++
    codes "printCurrentPage()" ++ [34] ++ codes ">Print Current Page</button>\n" ++
    codes "                    </div>\n" ++
    codes "                    <div class=" ++ [34] ++ codes "current-page-display" ++
    [34] ++ codes ">\n                        Page " ++ natDigits d ++ codes " of " ++
    natDigits t ++ codes "\n                    </div>\n" ++
    codes "                    <button class=" ++ [34] ++ codes "nav-button" ++ [34] ++
    codes " " ++ (if d = t then codes "disabled" else []) ++
    codes " onclick=" ++ [34] ++
    (if d < t then codes "navigateToNextPage(" ++ natDigits d ++ codes ", " ++
      natDigits t ++ codes ")" else []) ++
    [34] ++ codes ">Next Page</button>\n" ++
    codes "                </div>\n"

/-- `merge_html_pages(publication_files, output_path)`: `none` for an
empty file list (the source prints and returns without writing);
otherwise the written document is the HTML shell around the
concatenated loop blocks.  `header` and `footer` stand for the fixed
shell literals of lines 53–321 and 379–381. -/
def merge_html_pages (header footer : List Nat) (pages : List PageFile) :
    Option (List Nat) :=
  match pages with
  | [] => none
  | _ => some (header ++ ((mergeBlocks pages).flatMap renderBlock) ++ footer)

/-!
## Claims
-/

/-- C1: the claim states that the injected client-side `decodeBase85`
inverts the server-side `encode_base85` on every byte string.  It does
not: the encoder uses the ASCII85 alphabet (codes 33–117, `z` folding)
while the decoder indexes a different 85-character alphabet, so already
the single byte `0x00`, encoded as `!!`, decodes to `0xC3` (195). -/
theorem c1_base85_roundtrip_fails :
    decodeBase85 (encode_base85 [0]) = [195] ∧
      decodeBase85 (encode_base85 [0]) ≠ [0] := by
  decide

/-- C6: `optimise_audio` returns the original bytes and MIME type
unchanged whenever ffmpeg is unavailable, the input is below 10240
bytes, the run raises or exits non-zero, or the transcoded output is
not strictly smaller; only a successful, strictly shrinking transcode
returns the new bytes with MIME type `audio/mpeg`. -/
theorem c6_optimise_audio_skip (env : AudioEnv) (d m : List Nat) :
    optimise_audio env d m =
      if env.ffmpegOk ∧ ¬ d.length < 10240 ∧ ¬ env.runExc ∧ env.returncodeZero ∧
          env.output.length < d.length
      then (env.output, codes "audio/mpeg")
      else (d, m) := by
  unfold optimise_audio
  rcases env with ⟨fo, re, rz, out⟩
  rcases fo <;> rcases re <;> rcases rz <;> split_ifs <;> simp_all

/-- C9: `optimize_image` and `optimize_svg` never return data larger
than their input: each returns the original bytes unchanged or a
strictly smaller result. -/
theorem c9_optimize_never_larger (ienv : ImageEnv) (senv : SvgEnv)
    (image_data mime_type : List Nat) (webp : Bool) (svg_data : List Nat) :
    ((optimize_image ienv image_data mime_type webp).1 = image_data ∨
      (optimize_image ienv image_data mime_type webp).1.length < image_data.length) ∧
    ((optimize_svg senv svg_data).1 = svg_data ∨
      (optimize_svg senv svg_data).1.length < svg_data.length) := by
  constructor
  · unfold optimize_image
    rcases ienv with ⟨pa, vi, wb, rb⟩
    rcases wb with _ | w <;> rcases rb with _ | r <;>
      split_ifs <;> simp_all <;> split_ifs <;> simp_all
  · unfold optimize_svg
    split_ifs <;> simp_all

/-- C10: in both `optimise_base64.py` and `png_to_jpeg_optimiser.py`,
a data URI whose decoded payload is below the `min_size` option is
returned unchanged by `process_data_uri`. -/
theorem c10_min_size_skip (env : AudioEnv) (cenv : ConvEnv) (minSize : Nat)
    (o : PngOpts) (candidate mime payload bin : List Nat)
    (hp : uriSearch candidate = some (mime, payload))
    (hd : b64decodePy payload = some bin)
    (h1 : bin.length < minSize) (h2 : bin.length < o.minSize) :
    process_data_uri_ob env minSize candidate = candidate ∧
      process_data_uri_png cenv o candidate = candidate := by
  constructor
  · unfold process_data_uri_ob
    simp only [hp, hd]
    simp [h1]
  · unfold process_data_uri_png
    simp only [hp, hd]
    simp [h2]

/-- C10 witness: a 3-byte PNG payload below the default threshold of
1024 bytes is left untouched by both scripts. -/
theorem c10_min_size_skip_witness :
    process_data_uri_ob ⟨false, false, false, []⟩ 1024
        (codes "data:image/png;base64,QUJD") = codes "data:image/png;base64,QUJD" ∧
      process_data_uri_png ⟨none⟩ ⟨1024, true, [], 1, 20⟩
        (codes "data:image/png;base64,QUJD") = codes "data:image/png;base64,QUJD" :=
  c10_min_size_skip ⟨false, false, false, []⟩ ⟨none⟩ 1024 ⟨1024, true, [], 1, 20⟩
    (codes "data:image/png;base64,QUJD") (codes "image/png") (codes "QUJD")
    [65, 66, 67] (by decide) (by decide) (by decide) (by decide)

/-- C7: a candidate in which the data URI pattern does not match, or
whose payload is not valid base64, is returned unchanged by
`process_data_uri` of `optimise_base64.py` and of
`png_to_jpeg_optimiser.py`. -/
theorem c7_malformed_unchanged (env : AudioEnv) (minSize : Nat) (cenv : ConvEnv)
    (o : PngOpts) (candidate : List Nat) :
    (uriSearch candidate = none →
      process_data_uri_ob env minSize candidate = candidate ∧
        process_data_uri_png cenv o candidate = candidate) ∧
    (∀ mime payload, uriSearch candidate = some (mime, payload) →
      b64decodePy payload = none →
      process_data_uri_ob env minSize candidate = candidate ∧
        process_data_uri_png cenv o candidate = candidate) := by
  constructor
  · intro hnone
    constructor
    · unfold process_data_uri_ob
      simp only [hnone]
    · unfold process_data_uri_png
      simp only [hnone]
  · intro mime payload hp hd
    constructor
    · unfold process_data_uri_ob
      simp only [hp, hd]
    · unfold process_data_uri_png
      simp only [hp, hd]

/-- C7 witness: a string with no data URI, and a data URI whose payload
`QQ` has an incomplete final base64 quantum, both come back unchanged. -/
theorem c7_malformed_unchanged_witness :
    process_data_uri_ob ⟨false, false, false, []⟩ 1024 (codes "<p>plain text</p>") =
        codes "<p>plain text</p>" ∧
      process_data_uri_png ⟨none⟩ ⟨1024, true, [], 1, 20⟩
        (codes "data:image/png;base64,QQ") = codes "data:image/png;base64,QQ" :=
  ⟨((c7_malformed_unchanged ⟨false, false, false, []⟩ 1024 ⟨none⟩
      ⟨1024, true, [], 1, 20⟩ (codes "<p>plain text</p>")).1 (by decide)).1,
   ((c7_malformed_unchanged ⟨false, false, false, []⟩ 1024 ⟨none⟩
      ⟨1024, true, [], 1, 20⟩ (codes "data:image/png;base64,QQ")).2
      (codes "image/png") (codes "QQ") (by decide) (by decide)).2⟩

/-- C2: when an audio payload is skipped (below the size threshold, or
`optimise_audio` returned it unchanged because ffmpeg was unavailable,
failed, or achieved no reduction), the data URI substituted back either
is the original candidate or carries the base64 re-encoding of the same
bytes, which decodes to exactly the original payload bytes. -/
theorem c2_audio_bytes_preserved (env : AudioEnv) (minSize : Nat)
    (candidate mime payload bin : List Nat)
    (hp : uriSearch candidate = some (mime, payload))
    (hd : b64decodePy payload = some bin)
    (ha : (codes "audio/").isPrefixOf mime)
    (hskip : bin.length < minSize ∨ optimise_audio env bin mime = (bin, mime)) :
    process_data_uri_ob env minSize candidate = candidate ∨
      (process_data_uri_ob env minSize candidate =
          codes "data:" ++ mime ++ codes ";base64," ++ b64encode bin ∧
        b64decodePy (b64encode bin) = some bin) := by
  by_cases hsmall : bin.length < minSize
  · left
    unfold process_data_uri_ob
    simp only [hp, hd]
    simp [hsmall]
  · rcases hskip with hskip | hskip
    · exact absurd hskip hsmall
    · right
      constructor
      · unfold process_data_uri_ob
        simp only [hp, hd]
        simp [hsmall, ha, hskip]
      · exact b64decodePy_b64encode bin (b64decodePy_lt256 hd)

/-- C2 witness: with ffmpeg unavailable the 3-byte payload `QUJD`
(bytes `ABC`) survives the round trip exactly. -/
theorem c2_audio_bytes_preserved_witness :
    process_data_uri_ob ⟨false, false, false, []⟩ 1
        (codes "data:audio/mpeg;base64,QUJD") = codes "data:audio/mpeg;base64,QUJD" ∨
      (process_data_uri_ob ⟨false, false, false, []⟩ 1
          (codes "data:audio/mpeg;base64,QUJD") =
          codes "data:" ++ codes "audio/mpeg" ++ codes ";base64," ++
            b64encode [65, 66, 67] ∧
        b64decodePy (b64encode [65, 66, 67]) = some [65, 66, 67]) :=
  c2_audio_bytes_preserved ⟨false, false, false, []⟩ 1
    (codes "data:audio/mpeg;base64,QUJD") (codes "audio/mpeg") (codes "QUJD")
    [65, 66, 67] (by decide) (by decide) (by decide) (Or.inr (by decide))

theorem audio_mime_disjoint (m : List Nat)
    (h : (codes "audio/").isPrefixOf m = true) :
    m ≠ codes "image/svg+xml" ∧ (codes "image/").isPrefixOf m = false := by
  have ha : codes "audio/" = [97, 117, 100, 105, 111, 47] := by decide
  have hi : codes "image/" = [105, 109, 97, 103, 101, 47] := by decide
  have hs : codes "image/svg+xml" =
      [105, 109, 97, 103, 101, 47, 115, 118, 103, 43, 120, 109, 108] := by decide
  rw [ha] at h
  rcases m with _ | ⟨c, m'⟩
  · simp [List.isPrefixOf] at h
  · rcases List.isPrefixOf_iff_prefix.mp h with ⟨t, ht⟩
    have hc : c = 97 := by
      have := congrArg (fun l => l.headI) ht
      simpa using this.symm
    subst hc
    constructor
    · rw [hs]
      intro heq
      injection heq with h1 _
      omega
    · rw [hi]
      simp [List.isPrefixOf]

/-- C5 (amended): for a valid payload of at least `min_size` bytes,
`process_data_uri` of `optimise_base64_image_audio.py` dispatches on
the MIME type — `image/svg+xml` to `optimize_svg`, every other
`image/*` to `optimize_image`, every `audio/*` to `optimize_audio`
(whose result is always re-encoded into a plain base64 data URI) — and
in the non-audio branches the re-encoded result is substituted as
`data-optimized-src` attributes only when it is at least
`min_compression_ratio` smaller than the original encoded payload,
the original data URI being kept otherwise; a payload of any other
MIME type keeps its original bytes, either untouched or re-encoded. -/
theorem c5_dispatch_amended (ienv : ImageEnv) (senv : SvgEnv) (aenv : AudioEnv)
    (o : IaOpts) (candidate mime payload bin : List Nat)
    (hp : uriSearch candidate = some (mime, payload))
    (hd : b64decodePy payload = some bin)
    (hsize : ¬ bin.length < o.minSize) :
    (mime = codes "image/svg+xml" →
      process_data_uri_ia ienv senv aenv o candidate =
        iaFinish o mime payload candidate (optimize_svg senv bin).1 mime
          (optimize_svg senv bin).2) ∧
    (mime ≠ codes "image/svg+xml" → (codes "image/").isPrefixOf mime = true →
      process_data_uri_ia ienv senv aenv o candidate =
        iaFinish o mime payload candidate
          (optimize_image ienv bin mime o.useWebp).1
          (optimize_image ienv bin mime o.useWebp).2 (codes "none")) ∧
    ((codes "audio/").isPrefixOf mime = true →
      process_data_uri_ia ienv senv aenv o candidate =
        codes "data:" ++ (optimize_audio aenv bin mime).2 ++ codes ";base64," ++
          b64encode (optimize_audio aenv bin mime).1) ∧
    (mime ≠ codes "image/svg+xml" → (codes "image/").isPrefixOf mime = false →
      (codes "audio/").isPrefixOf mime = false →
      process_data_uri_ia ienv senv aenv o candidate =
          iaFinish o mime payload candidate bin mime (codes "none") ∧
        (process_data_uri_ia ienv senv aenv o candidate = candidate ∨
          process_data_uri_ia ienv senv aenv o candidate =
            attrIa (if o.useBase85 then encode_base85 bin else b64encode bin) mime
              (if o.useBase85 then codes "base85" else codes "base64")
              (codes "none"))) := by
  refine ⟨?_, ?_, ?_, ?_⟩
  · intro hsvg
    unfold process_data_uri_ia
    simp only [hp, hd]
    simp [hsize, hsvg]
  · intro hns himg
    unfold process_data_uri_ia
    simp only [hp, hd]
    simp [hsize, hns, himg]
  · intro ha
    rcases audio_mime_disjoint mime ha with ⟨hns, himg⟩
    unfold process_data_uri_ia
    simp only [hp, hd]
    simp [hsize, hns, himg, ha]
  · intro hns himg hau
    have heq : process_data_uri_ia ienv senv aenv o candidate =
        iaFinish o mime payload candidate bin mime (codes "none") := by
      unfold process_data_uri_ia
      simp only [hp, hd]
      simp [hsize, hns, himg, hau]
    refine ⟨heq, ?_⟩
    rw [heq]
    simp only [iaFinish]
    rcases hb85 : o.useBase85 with _ | _
    · norm_num
      by_cases hrat : ((payload.length : Int) - ((b64encode bin).length : Int)) *
          o.minRatioDen < o.minRatioNum * (payload.length : Int)
      · exact Or.inl (fun h => absurd hrat (by omega))
      · exact Or.inr (fun h => absurd h hrat)
    · rw [hau]
      norm_num
      by_cases hrat : ((payload.length : Int) - ((encode_base85 bin).length : Int)) *
          o.minRatioDen < o.minRatioNum * (payload.length : Int)
      · exact Or.inl (fun h => absurd hrat (by omega))
      · exact Or.inr (fun h => absurd h hrat)

/-- C5 counterexample: an SVG payload of 21 bytes (with `min_size` 1)
is minified to 19 bytes — a strict reduction — yet `process_data_uri`
returns the original data URI unchanged, because the re-encoded result
is not at least `min_compression_ratio` (1/20) smaller than the
original encoded payload.  The claim that the optimised result is
re-encoded and substituted back therefore fails as stated. -/
theorem c5_ratio_gate_counterexample :
    process_data_uri_ia ⟨false, false, none, none⟩
        ⟨true, List.replicate 19 66, List.replicate 100 67⟩
        ⟨false, false, false, []⟩ ⟨1, false, false, 1, 20⟩
        (codes "data:image/svg+xml;base64," ++ b64encode (List.replicate 21 65)) =
      codes "data:image/svg+xml;base64," ++ b64encode (List.replicate 21 65) ∧
    (optimize_svg ⟨true, List.replicate 19 66, List.replicate 100 67⟩
        (List.replicate 21 65)).1.length < 21 := by
  decide

/-- C5 witness: a `text/plain` payload takes the fall-through branch
and, with the default ratio, the candidate comes back unchanged. -/
theorem c5_dispatch_amended_witness :
    process_data_uri_ia ⟨false, false, none, none⟩ ⟨false, [], []⟩
        ⟨false, false, false, []⟩ ⟨1, false, false, 1, 20⟩
        (codes "data:text/plain;base64,QUJD") = codes "data:text/plain;base64,QUJD" :=
  (((c5_dispatch_amended ⟨false, false, none, none⟩ ⟨false, [], []⟩
      ⟨false, false, false, []⟩ ⟨1, false, false, 1, 20⟩
      (codes "data:text/plain;base64,QUJD") (codes "text/plain") (codes "QUJD")
      [65, 66, 67] (by decide) (by decide) (by decide)).2.2.2
      (by decide) (by decide) (by decide)).1).trans (by decide)

theorem insertPair_perm (x : Nat × List Nat) (l : List (Nat × List Nat)) :
    (insertPair x l).Perm (x :: l) := by
  induction l with
  | nil => exact List.Perm.refl _
  | cons y ys ih =>
    unfold insertPair
    split
    · exact List.Perm.refl _
    · exact (List.Perm.cons y ih).trans (List.Perm.swap x y ys)

theorem sortPairsGo_perm :
    ∀ (l s : List (Nat × List Nat)),
      (l.foldl (fun s x => insertPair x s) s).Perm (l ++ s) := by
  intro l
  induction l with
  | nil => intro s; simp
  | cons x xs ih =>
    intro s
    have h1 : (xs.foldl (fun s x => insertPair x s) (insertPair x s)).Perm
        (xs ++ insertPair x s) := ih (insertPair x s)
    have h2 : (xs ++ insertPair x s).Perm (xs ++ x :: s) :=
      List.Perm.append_left xs (insertPair_perm x s)
    have h3 : (xs ++ x :: s).Perm (x :: (xs ++ s)) := List.perm_middle
    simpa using (h1.trans h2).trans h3

theorem sortPairs_perm (l : List (Nat × List Nat)) : (sortPairs l).Perm l := by
  simpa using sortPairsGo_perm l []

theorem insertPair_pairwise (x : Nat × List Nat) (l : List (Nat × List Nat))
    (h : l.Pairwise (fun a b => a.1 ≤ b.1)) :
    (insertPair x l).Pairwise (fun a b => a.1 ≤ b.1) := by
  induction l with
  | nil => simp [insertPair]
  | cons y ys ih =>
    rcases List.pairwise_cons.mp h with ⟨hy, hys⟩
    unfold insertPair
    split
    · rename_i hlt
      refine List.pairwise_cons.mpr ⟨?_, h⟩
      intro z hz
      rcases List.mem_cons.mp hz with rfl | hz
      · omega
      · have := hy z hz
        omega
    · rename_i hge
      refine List.pairwise_cons.mpr ⟨?_, ih hys⟩
      intro z hz
      rcases List.mem_cons.mp ((insertPair_perm x ys).mem_iff.mp hz) with rfl | hz'
      · omega
      · exact hy z hz'

theorem sortPairs_pairwise (l : List (Nat × List Nat)) :
    (sortPairs l).Pairwise (fun a b => a.1 ≤ b.1) := by
  suffices h : ∀ (l s : List (Nat × List Nat)),
      s.Pairwise (fun a b => a.1 ≤ b.1) →
      (l.foldl (fun s x => insertPair x s) s).Pairwise (fun a b => a.1 ≤ b.1) by
    exact h l [] (by simp)
  intro l
  induction l with
  | nil => intro s hs; simpa using hs
  | cons x xs ih => intro s hs; exact ih (insertPair x s) (insertPair_pairwise x s hs)

theorem filterMap_pub_snd (dir : List Nat) (listing : List (List Nat)) :
    ((listing.filterMap
        (fun n => (pubMatch n).map (fun k => (k, pathJoin dir n))))).map Prod.snd =
      (listing.filter (fun n => (pubMatch n).isSome)).map (pathJoin dir) := by
  induction listing with
  | nil => rfl
  | cons n ns ih =>
    cases hm : pubMatch n <;>
      simp [List.filterMap_cons, hm, List.filter_cons, ih]

theorem dropWhile_ne_nil_append {p : Nat → Bool} (l t : List Nat)
    (h : l.dropWhile p ≠ []) :
    (l ++ t).takeWhile p = l.takeWhile p ∧
      (l ++ t).dropWhile p = l.dropWhile p ++ t := by
  induction l with
  | nil => simp at h
  | cons c cs ih =>
    by_cases hc : p c
    · rw [List.dropWhile_cons_of_pos hc] at h
      have := ih h
      simp [List.takeWhile_cons, List.dropWhile_cons, hc, this.1, this.2]
    · simp [List.takeWhile_cons, List.dropWhile_cons, hc]

theorem stripPre?_append {pat l r : List Nat} (h : stripPre? pat l = some r)
    (t : List Nat) : stripPre? pat (l ++ t) = some (r ++ t) := by
  unfold stripPre? at h ⊢
  split at h
  · rename_i hpre
    injection h with h
    have hlp : pat <+: l := List.isPrefixOf_iff_prefix.mp hpre
    rw [if_pos (List.isPrefixOf_iff_prefix.mpr (hlp.trans (List.prefix_append l t)))]
    rw [List.drop_append_of_le_length hlp.length_le, ← h]
  · exact absurd h (by simp)

theorem pubMatchRev_append {r : List Nat} {k : Nat} (h : pubMatchRev r = some k)
    (t : List Nat) : pubMatchRev (r ++ t) = some k := by
  unfold pubMatchRev at h ⊢
  cases hs : stripPre? (codes ".html").reverse r with
  | none => rw [hs] at h; exact absurd h (by simp)
  | some r1 =>
    simp only [hs] at h
    simp only [stripPre?_append hs t]
    split at h
    · exact absurd h (by simp)
    · rename_i hne
      split at h
      · rename_i hpre
        have hstop : r1.dropWhile isDigitN ≠ [] := by
          intro h0
          rw [h0] at hpre
          simp [codes, List.isPrefixOf] at hpre
        have hsplit := dropWhile_ne_nil_append r1 t hstop
        rw [if_neg (by rw [hsplit.1]; exact hne)]
        rw [if_pos]
        · rw [hsplit.1]
          exact h
        · rw [hsplit.2]
          have hp : (codes "publication-").reverse <+: r1.dropWhile isDigitN :=
            List.isPrefixOf_iff_prefix.mp hpre
          exact List.isPrefixOf_iff_prefix.mpr
            (hp.trans (List.prefix_append (r1.dropWhile isDigitN) t))
      · exact absurd h (by simp)

theorem pubMatch_pathJoin (dir n : List Nat) {k : Nat} (h : pubMatch n = some k) :
    pubMatch (pathJoin dir n) = some k := by
  unfold pubMatch pathJoin
  unfold pubMatch at h
  have hrev : (dir ++ [47] ++ n).reverse = n.reverse ++ (dir ++ [47]).reverse := by
    rw [List.reverse_append]
  rw [hrev]
  exact pubMatchRev_append h _

/-- C4: `find_publication_files` returns exactly the joined paths of
the listing entries whose names end in `publication-<digits>.html`
— a permutation of the filtered listing — ordered by ascending integer
value of the captured numeric suffix. -/
theorem c4_find_publication_files (dir : List Nat) (listing : List (List Nat)) :
    (find_publication_files dir listing).Perm
        ((listing.filter (fun n => (pubMatch n).isSome)).map (pathJoin dir)) ∧
      (find_publication_files dir listing).Pairwise
        (fun p q => (pubMatch p).getD 0 ≤ (pubMatch q).getD 0) := by
  have hkey : ∀ p ∈ sortPairs (listing.filterMap
      (fun n => (pubMatch n).map (fun k => (k, pathJoin dir n)))),
      pubMatch p.2 = some p.1 := by
    intro p hp'
    have hmem := (sortPairs_perm _).mem_iff.mp hp'
    rcases List.mem_filterMap.mp hmem with ⟨n, hn, hopt⟩
    rcases hmk : pubMatch n with _ | k
    · rw [hmk] at hopt
      simp at hopt
    · rw [hmk] at hopt
      injection hopt with hopt
      rw [← hopt]
      exact pubMatch_pathJoin dir n hmk
  constructor
  · unfold find_publication_files
    have h2 := (sortPairs_perm (listing.filterMap
      (fun n => (pubMatch n).map (fun k => (k, pathJoin dir n))))).map Prod.snd
    rw [filterMap_pub_snd] at h2
    exact h2
  · unfold find_publication_files
    rw [List.pairwise_map]
    refine (sortPairs_pairwise _).imp_of_mem ?_
    intro a b ha hb hle
    rw [hkey a ha, hkey b hb]
    simpa using hle

theorem splitOn_no_sep (sep : Nat) (xs : List Nat) (h : ∀ c ∈ xs, c ≠ sep) :
    splitOnList sep xs = [xs] := by
  induction xs with
  | nil => rfl
  | cons c cs ih =>
    have hc : c ≠ sep := h c (by simp)
    unfold splitOnList
    rw [if_neg hc, ih (fun x hx => h x (by simp [hx]))]

theorem splitOn_append_sep (sep : Nat) (xs ys : List Nat) (h : ∀ c ∈ xs, c ≠ sep) :
    splitOnList sep (xs ++ sep :: ys) = xs :: splitOnList sep ys := by
  induction xs with
  | nil =>
    show splitOnList sep (sep :: ys) = [] :: splitOnList sep ys
    conv_lhs => rw [splitOnList]
    simp

  | cons c cs ih =>
    have hc : c ≠ sep := h c (by simp)
    show splitOnList sep (c :: (cs ++ sep :: ys)) = (c :: cs) :: splitOnList sep ys
    conv_lhs => rw [splitOnList]
    simp [ih (fun x hx => h x (by simp [hx])), hc]

theorem basename_no_slash (p : List Nat) (h : ∀ c ∈ p, c ≠ 47) :
    basenameList p = p := by
  unfold basenameList
  rw [List.takeWhile_eq_self_iff.mpr, List.reverse_reverse]
  intro c hc
  simpa using h c (List.mem_reverse.mp hc)

theorem natDigitsGo_digits :
    ∀ fuel n, ∀ c ∈ natDigitsGo fuel n, 48 ≤ c ∧ c ≤ 57 := by
  intro fuel
  induction fuel with
  | zero =>
    intro n c hc
    simp only [natDigitsGo, List.mem_singleton] at hc
    omega
  | succ f ih =>
    intro n c hc
    simp only [natDigitsGo] at hc
    split at hc
    · rename_i hn
      simp only [List.mem_singleton] at hc
      omega
    · rcases List.mem_append.mp hc with hm | hm
      · exact ih _ c hm
      · simp only [List.mem_singleton] at hm
        omega

theorem natDigits_digits (n : Nat) : ∀ c ∈ natDigits n, 48 ≤ c ∧ c ≤ 57 :=
  natDigitsGo_digits n n

theorem natDigitsGo_ne_nil (fuel n : Nat) : natDigitsGo fuel n ≠ [] := by
  cases fuel with
  | zero => simp [natDigitsGo]
  | succ f =>
    simp only [natDigitsGo]
    split
    · simp
    · simp

theorem file_page_number_pub (ds : List Nat)
    (hd : ∀ c ∈ ds, 48 ≤ c ∧ c ≤ 57) :
    file_page_number (codes "publication-" ++ ds ++ codes ".html") = ds := by
  have hsplit1 : codes "publication-" ++ ds ++ codes ".html" =
      codes "publication" ++ 45 :: (ds ++ codes ".html") := by
    have : codes "publication-" = codes "publication" ++ [45] := by decide
    rw [this]
    simp
  have hpub47 : ∀ c ∈ codes "publication-", c ≠ 47 := by decide
  have hhtml47 : ∀ c ∈ codes ".html", c ≠ 47 := by decide
  have hnos : ∀ c ∈ codes "publication-" ++ ds ++ codes ".html", c ≠ 47 := by
    intro c hc
    rcases List.mem_append.mp hc with hm | hm
    · rcases List.mem_append.mp hm with hm' | hm'
      · exact hpub47 c hm'
      · have := hd c hm'
        omega
    · exact hhtml47 c hm
  have hds46 : ∀ c ∈ ds, c ≠ 46 := fun c hc => by have := hd c hc; omega
  have hds45 : ∀ c ∈ ds, c ≠ 45 := fun c hc => by have := hd c hc; omega
  unfold file_page_number
  rw [basename_no_slash _ hnos, hsplit1,
    splitOn_append_sep 45 (codes "publication") (ds ++ codes ".html")
      (by intro c hc; revert hc; revert c; decide)]
  have hhtml45 : ∀ c ∈ codes ".html", c ≠ 45 := by decide
  have h2 : splitOnList 45 (ds ++ codes ".html") = [ds ++ codes ".html"] := by
    apply splitOn_no_sep
    intro c hc
    rcases List.mem_append.mp hc with hm | hm
    · exact hds45 c hm
    · exact hhtml45 c hm
  simp only [h2, List.getD]
  have h3 : ds ++ codes ".html" = ds ++ 46 :: codes "html" := by
    have : codes ".html" = 46 :: codes "html" := by decide
    rw [this]
  rw [show ([codes "publication", ds ++ codes ".html"].get? 1) =
      some (ds ++ codes ".html") from rfl]
  simp only [Option.getD_some]
  rw [h3, splitOn_append_sep 46 ds (codes "html") hds46]
  rfl

theorem pubIds_flatMap (t : Nat) :
    ∀ (ps : List PageFile) (i : Nat),
    pubIds ((List.enumFrom i ps).flatMap
      (fun ip =>
        match ip.2.mainContent with
        | none => []
        | some mc =>
          MergeBlock.pub (file_page_number ip.2.path) mc ::
            (if ip.1 < t then [MergeBlock.sep ip.1 t] else []))) =
    ps.filterMap (fun p => p.mainContent.map (fun _ => file_page_number p.path)) := by
  intro ps
  induction ps with
  | nil => intro i; rfl
  | cons p ps ih =>
    intro i
    show pubIds ((match p.mainContent with
      | none => []
      | some mc =>
        MergeBlock.pub (file_page_number p.path) mc ::
          (if i < t then [MergeBlock.sep i t] else [])) ++
        (List.enumFrom (i + 1) ps).flatMap _) = _
    rcases hm : p.mainContent with _ | mc
    · simp only [pubIds, List.filterMap_append, List.filterMap_nil, List.nil_append,
        List.filterMap_cons, hm, Option.map_none]
      exact ih (i + 1)
    · simp only [pubIds, List.filterMap_append, List.filterMap_cons, hm]
      have hsep : ((if i < t then [MergeBlock.sep i t] else []).filterMap
          (fun b => match b with | .pub i _ => some i | .sep _ _ => none)) = [] := by
        split <;> rfl
      simp only [hsep]
      have := ih (i + 1)
      simp only [pubIds] at this
      simp [this]

/-- C3 (amended): the publication divs `merge_html_pages` emits are,
in order, one per input file whose parsed content has a matching div —
a file without one contributes nothing — and the id suffix of each is
`basename.split(\x27-\x27)[1].split(\x27.\x27)[0]`; when every file is
named `publication-<number>.html` and has content, that is exactly one
div per file with the numeric suffix as id. -/
theorem c3_merge_pub_divs_amended :
    (∀ pages : List PageFile,
      pubIds (mergeBlocks pages) =
        pages.filterMap
          (fun p => p.mainContent.map (fun _ => file_page_number p.path))) ∧
    (∀ ns : List (Nat × List Nat),
      pubIds (mergeBlocks (ns.map (fun nc =>
          ⟨codes "publication-" ++ natDigits nc.1 ++ codes ".html", some nc.2⟩))) =
        ns.map (fun nc => natDigits nc.1)) := by
  have hgen : ∀ pages : List PageFile,
      pubIds (mergeBlocks pages) =
        pages.filterMap
          (fun p => p.mainContent.map (fun _ => file_page_number p.path)) := by
    intro pages
    exact pubIds_flatMap pages.length pages 1
  refine ⟨hgen, ?_⟩
  intro ns
  rw [hgen]
  induction ns with
  | nil => rfl
  | cons nc ns ih =>
    simp only [List.map_cons, List.filterMap_cons, Option.map_some]
    rw [file_page_number_pub (natDigits nc.1) (natDigits_digits nc.1)]
    simp only [List.filterMap_map] at ih ⊢
    rw [ih]
    rfl

/-- C3 counterexample: the file `my-publication-3.html` is a
publication file (its numeric suffix is 3), its content div is found,
yet the single publication div emitted carries the id suffix
`publication` taken from `split(\x27-\x27)[1]`, not the numeric
suffix `3`. -/
theorem c3_id_suffix_counterexample :
    pubMatch (codes "my-publication-3.html") = some 3 ∧
      mergeBlocks [⟨codes "my-publication-3.html", some (codes "<div>X</div>")⟩] =
        [MergeBlock.pub (codes "publication") (codes "<div>X</div>")] ∧
      codes "publication" ≠ codes "3" := by
  decide

theorem lookupFont_eq_key {k nn : List Nat} (h : lookupFont k = some nn) :
    ∃ p ∈ FONT_NAME_MAP, p.1 = k ∧ p.2 = nn := by
  unfold lookupFont at h
  cases hf : FONT_NAME_MAP.find? (fun p => p.1 == k) with
  | none => rw [hf] at h; exact absurd h (by simp)
  | some p =>
    rw [hf] at h
    refine ⟨p, List.mem_of_find?_eq_some hf, ?_, ?_⟩
    · have := List.find?_some hf
      exact eq_of_beq this
    · injection h

theorem font_keys_ttf : ∀ p ∈ FONT_NAME_MAP, (codes ".ttf").isSuffixOf p.1 = true := by
  decide

theorem lookupFont_hasExt {f nn : List Nat}
    (h : lookupFont (lowerName f) = some nn) : hasFontExt f = true := by
  rcases lookupFont_eq_key h with ⟨p, hp, hk, _⟩
  unfold hasFontExt
  rw [← hk, font_keys_ttf p hp]
  rfl

/-- One step of the rename loop: skip when the target name is present,
otherwise replace the old name by the mapped one. -/
theorem renameStep_spec (st : List (List Nat)) (f nn : List Nat)
    (h : lookupFont (lowerName f) = some nn) :
    (nn ∈ st → renameStep st f = (st, none)) ∧
    (nn ∉ st →
      renameStep st f = (st.map (fun x => if x = f then nn else x), some (f, nn))) := by
  constructor
  · intro hmem
    unfold renameStep
    rw [if_pos (lookupFont_hasExt h)]
    simp only [h]
    rw [if_pos (by simpa using hmem)]
  · intro hmem
    unfold renameStep
    rw [if_pos (lookupFont_hasExt h)]
    simp only [h]
    rw [if_neg (by simpa using hmem)]

theorem renameStep_not_key (st : List (List Nat)) (f : List Nat)
    (h : lookupFont (lowerName f) = none) : renameStep st f = (st, none) := by
  unfold renameStep
  split
  · simp only [h]
  · rfl

theorem renameStep_fst_length (st : List (List Nat)) (f : List Nat) :
    (renameStep st f).1.length = st.length := by
  unfold renameStep
  split
  · cases lookupFont (lowerName f) with
    | none => rfl
    | some nn =>
      simp only
      split
      · rfl
      · simp
  · rfl

theorem renameStep_keeps_nonkey (st : List (List Nat)) (f g : List Nat)
    (hg : g ∈ st) (hnk : lookupFont (lowerName g) = none) :
    g ∈ (renameStep st f).1 := by
  unfold renameStep
  split
  · cases hl : lookupFont (lowerName f) with
    | none => exact hg
    | some nn =>
      simp only
      split
      · exact hg
      · refine List.mem_map.mpr ⟨g, hg, ?_⟩
        rw [if_neg]
        intro heq
        rw [heq, hl] at hnk
        exact absurd hnk (by simp)
  · exact hg

theorem renameStep_nodup (st : List (List Nat)) (f : List Nat) (h : st.Nodup) :
    (renameStep st f).1.Nodup := by
  unfold renameStep
  split
  · cases hl : lookupFont (lowerName f) with
    | none => exact h
    | some nn =>
      simp only
      split
      · exact h
      · rename_i hmem
        have hnn : nn ∉ st := by simpa using hmem
        clear hmem hl
        induction st with
        | nil => simp
        | cons y ys ih =>
          rcases List.nodup_cons.mp h with ⟨hy, hys⟩
          have hnn' : nn ∉ ys := fun hx => hnn (by simp [hx])
          have hnny : nn ≠ y := fun hx => hnn (by simp [hx])
          simp only [List.map_cons]
          by_cases hyf : y = f
          · rw [if_pos hyf]
            refine List.nodup_cons.mpr ⟨?_, ih hys hnn'⟩
            intro hx
            rcases List.mem_map.mp hx with ⟨z, hz, hrz⟩
            by_cases hzf : z = f
            · refine hy ?_
              rw [hyf, ← hzf]
              exact hz
            · rw [if_neg hzf] at hrz
              refine hnn' ?_
              rw [← hrz]
              exact hz
          · rw [if_neg hyf]
            refine List.nodup_cons.mpr ⟨?_, ih hys hnn'⟩
            intro hx
            rcases List.mem_map.mp hx with ⟨z, hz, hrz⟩
            by_cases hzf : z = f
            · rw [if_pos hzf] at hrz
              exact hnny hrz
            · rw [if_neg hzf] at hrz
              refine hy ?_
              rw [← hrz]
              exact hz
  · exact h

theorem renameStep_snd_eq (st : List (List Nat)) (f : List Nat)
    (pr : List Nat × List Nat) (h : (renameStep st f).2 = some pr) :
    lookupFont (lowerName pr.1) = some pr.2 := by
  unfold renameStep at h
  split at h
  · cases hl : lookupFont (lowerName f) with
    | none => rw [hl] at h; exact absurd h (by simp)
    | some nn =>
      rw [hl] at h
      simp only at h
      split at h
      · exact absurd h (by simp)
      · injection h with h
        rw [← h]
        exact hl
  · exact absurd h (by simp)

theorem rename_fold_log :
    ∀ (rest st : List (List Nat)) (acc : List (List Nat × List Nat)),
      (∀ pr ∈ acc, lookupFont (lowerName pr.1) = some pr.2) →
      ∀ pr ∈ (rest.foldl
          (fun acc f =>
            let r := renameStep acc.1 f
            (r.1, acc.2 ++ r.2.toList)) (st, acc)).2,
        lookupFont (lowerName pr.1) = some pr.2 := by
  intro rest
  induction rest with
  | nil => intro st acc hacc pr hpr; exact hacc pr hpr
  | cons f fs ih =>
    intro st acc hacc
    apply ih
    intro pr hpr
    rcases List.mem_append.mp hpr with h | h
    · exact hacc pr h
    · cases hr : (renameStep st f).2 with
      | none => rw [hr] at h; simp at h
      | some q =>
        rw [hr] at h
        simp only [Option.toList_some, List.mem_singleton] at h
        exact h ▸ renameStep_snd_eq st f q hr

theorem rename_fold_keeps :
    ∀ (rest st : List (List Nat)) (acc : List (List Nat × List Nat)) (g : List Nat),
      g ∈ st → lookupFont (lowerName g) = none →
      g ∈ (rest.foldl
          (fun acc f =>
            let r := renameStep acc.1 f
            (r.1, acc.2 ++ r.2.toList)) (st, acc)).1 := by
  intro rest
  induction rest with
  | nil => intro st acc g hg _; exact hg
  | cons f fs ih =>
    intro st acc g hg hnk
    exact ih _ _ g (renameStep_keeps_nonkey st f g hg hnk) hnk

theorem rename_fold_length :
    ∀ (rest st : List (List Nat)) (acc : List (List Nat × List Nat)),
      (rest.foldl
          (fun acc f =>
            let r := renameStep acc.1 f
            (r.1, acc.2 ++ r.2.toList)) (st, acc)).1.length = st.length := by
  intro rest
  induction rest with
  | nil => intro st acc; rfl
  | cons f fs ih =>
    intro st acc
    rw [List.foldl_cons]
    exact (ih _ _).trans (renameStep_fst_length st f)

theorem rename_fold_nodup :
    ∀ (rest st : List (List Nat)) (acc : List (List Nat × List Nat)),
      st.Nodup →
      (rest.foldl
          (fun acc f =>
            let r := renameStep acc.1 f
            (r.1, acc.2 ++ r.2.toList)) (st, acc)).1.Nodup := by
  intro rest
  induction rest with
  | nil => intro st acc h; exact h
  | cons f fs ih =>
    intro st acc h
    exact ih _ _ (renameStep_nodup st f h)

/-- C8: a file is renamed exactly when its lowercased name is a key of
`FONT_NAME_MAP` and the mapped target is not present in the directory
at that moment (the target is then never overwritten, the old name
being replaced by the new one); files whose lowercased names are not
keys are never renamed and survive, every rename recorded maps a key
to its mapped name, and no file is lost or overwritten. -/
theorem c8_rename_fonts (listing : List (List Nat)) :
    (∀ (st : List (List Nat)) (f nn : List Nat),
      lookupFont (lowerName f) = some nn →
      (nn ∈ st → renameStep st f = (st, none)) ∧
      (nn ∉ st →
        renameStep st f =
          (st.map (fun x => if x = f then nn else x), some (f, nn)))) ∧
    (∀ (st : List (List Nat)) (f : List Nat),
      lookupFont (lowerName f) = none → renameStep st f = (st, none)) ∧
    (∀ pr ∈ (rename_fonts listing).2, lookupFont (lowerName pr.1) = some pr.2) ∧
    (∀ f ∈ listing, lookupFont (lowerName f) = none →
      f ∈ (rename_fonts listing).1) ∧
    (rename_fonts listing).1.length = listing.length ∧
    (listing.Nodup → (rename_fonts listing).1.Nodup) := by
  refine ⟨renameStep_spec, renameStep_not_key, ?_, ?_, ?_, ?_⟩
  · intro pr hpr
    exact rename_fold_log listing listing [] (by simp) pr hpr
  · intro f hf hnk
    exact rename_fold_keeps listing listing [] f hf hnk
  · exact rename_fold_length listing listing []
  · intro hnd
    exact rename_fold_nodup listing listing [] hnd

/-- C8 witness: `calibrib.ttf` is renamed to `Calibri-Bold.ttf` when
the target is absent, and skipped when the target is already there. -/
theorem c8_rename_fonts_witness :
    renameStep [codes "calibrib.ttf", codes "readme.txt"] (codes "calibrib.ttf") =
        ([codes "Calibri-Bold.ttf", codes "readme.txt"],
          some (codes "calibrib.ttf", codes "Calibri-Bold.ttf")) ∧
      renameStep [codes "timesbd.ttf", codes "Times-New-Roman-Bold.ttf"]
          (codes "timesbd.ttf") =
        ([codes "timesbd.ttf", codes "Times-New-Roman-Bold.ttf"], none) :=
  ⟨(((c8_rename_fonts []).1 [codes "calibrib.ttf", codes "readme.txt"]
      (codes "calibrib.ttf") (codes "Calibri-Bold.ttf") (by decide)).2
      (by decide)).trans (by decide),
   ((c8_rename_fonts []).1 [codes "timesbd.ttf", codes "Times-New-Roman-Bold.ttf"]
      (codes "timesbd.ttf") (codes "Times-New-Roman-Bold.ttf") (by decide)).1
      (by decide)⟩
